import Mathlib

set_option maxHeartbeats 1000000

/-!
Shallow embedding of the tensorpandas core (src/tensorpandas/base.py and
src/tensorpandas/_patch_1_3.py).

Machine scalars are modelled by their bit patterns: a scalar of a dtype with
bit width `w` is a `Nat` below `2 ^ w`.  Byte strings are lists of `Nat`
(each below 256).  An `np.ndarray` is a dtype together with a logical shape
and its row-major flat data.  Fallible Python code is modelled in
`Except PyErr`.
-/

namespace Tensorpandas

/-- Python exception classes raised by the code paths under study, with the
message of the concrete raise site. -/
inductive PyErr where
  | valueError (msg : String)
  | indexError (msg : String)
  | typeError (msg : String)
  | keyError (msg : String)
deriving DecidableEq, Repr

instance {ε α : Type} [DecidableEq ε] [DecidableEq α] :
    DecidableEq (Except ε α) := fun x y =>
  match x, y with
  | .ok a, .ok b =>
    if h : a = b then isTrue (by rw [h])
    else isFalse (fun hh => by cases hh; exact h rfl)
  | .ok _, .error _ => isFalse (fun hh => by cases hh)
  | .error _, .ok _ => isFalse (fun hh => by cases hh)
  | .error e, .error f =>
    if h : e = f then isTrue (by rw [h])
    else isFalse (fun hh => by cases hh; exact h rfl)

/-- Primitive numeric element types supported as tensor subtypes
(the pyarrow primitive fixed-width numeric types). -/
inductive DType where
  | int8 | int16 | int32 | int64
  | uint8 | uint16 | uint32 | uint64
  | float16 | float32 | float64
deriving DecidableEq, Repr

/-- Bit width of the dtype, as reported by `pa.DataType.bit_width`. -/
def DType.bit_width : DType → Nat
  | .int8 => 8
  | .int16 => 16
  | .int32 => 32
  | .int64 => 64
  | .uint8 => 8
  | .uint16 => 16
  | .uint32 => 32
  | .uint64 => 64
  | .float16 => 16
  | .float32 => 32
  | .float64 => 64

/-- Width in bytes of one scalar of the dtype (`np.dtype.itemsize`). -/
def DType.byte_width (d : DType) : Nat := d.bit_width / 8

/-- Result of Python `str(...)` on the pyarrow type object (the name pyarrow
prints: `str(pa.float32())` is "float", `str(pa.float64())` is "double",
`str(pa.float16())` is "halffloat", integers print their own name). -/
def DType.str : DType → String
  | .int8 => "int8"
  | .int16 => "int16"
  | .int32 => "int32"
  | .int64 => "int64"
  | .uint8 => "uint8"
  | .uint16 => "uint16"
  | .uint32 => "uint32"
  | .uint64 => "uint64"
  | .float16 => "halffloat"
  | .float32 => "float"
  | .float64 => "double"

/-- Embedding of `pa.type_for_alias` restricted to the numeric aliases
relevant here; an unknown alias raises `ValueError`. -/
def type_for_alias (name : String) : Except PyErr DType :=
  if name = "int8" then .ok .int8
  else if name = "int16" then .ok .int16
  else if name = "int32" then .ok .int32
  else if name = "int64" then .ok .int64
  else if name = "uint8" then .ok .uint8
  else if name = "uint16" then .ok .uint16
  else if name = "uint32" then .ok .uint32
  else if name = "uint64" then .ok .uint64
  else if name = "halffloat" ∨ name = "float16" then .ok .float16
  else if name = "float" ∨ name = "float32" then .ok .float32
  else if name = "double" ∨ name = "float64" then .ok .float64
  else .error (.valueError "No type alias for name")

/-- IEEE-754 NaN test on the bit pattern of a scalar of the given dtype
(exponent field all ones and mantissa nonzero); `np.isnan` is identically
false on integer dtypes. -/
def isNaNBits (d : DType) (x : Nat) : Bool :=
  match d with
  | .float16 => ((x >>> 10) % 32 == 31) && (x % 1024 != 0)
  | .float32 => ((x >>> 23) % 256 == 255) && (x % 8388608 != 0)
  | .float64 => ((x >>> 52) % 2048 == 2047) && (x % 4503599627370496 != 0)
  | _ => false

/-- Bit pattern stored when the Python float `np.nan` is written into an
array of the given floating dtype (the canonical quiet NaN).  Integer
dtypes have no NaN; writing `np.nan` into them goes through a dtype
promotion that is outside this model, so theorems using the default fill
are restricted to floating dtypes. -/
def nanBits : DType → Nat
  | .float16 => 0x7e00
  | .float32 => 0x7fc00000
  | .float64 => 0x7ff8000000000000
  | _ => 0

/-- Model of `np.ndarray`: dtype, logical shape, and row-major flat data of
scalar bit patterns. -/
structure NDArr where
  dtype : DType
  shape : List Nat
  data : List Nat
deriving DecidableEq, Repr

/-- Well-formedness of the ndarray model: the flat data has exactly
`prod shape` entries and every scalar bit pattern fits the dtype width. -/
def NDArr.wf (a : NDArr) : Prop :=
  a.data.length = a.shape.prod ∧ ∀ x ∈ a.data, x < 2 ^ a.dtype.bit_width

instance (a : NDArr) : Decidable a.wf := by
  unfold NDArr.wf; infer_instance

/-- Number of rows: size of the leading axis (`shape[0]`). -/
def NDArr.len (a : NDArr) : Nat := a.shape.headD 0

/-- Flat size of one row sub-tensor: product of the trailing dims. -/
def NDArr.rowSize (a : NDArr) : Nat := a.shape.tail.prod

/-- Cut a list into `n` consecutive chunks of `w` elements each. -/
def takeChunks {α : Type} (w : Nat) : Nat → List α → List (List α)
  | 0, _ => []
  | n + 1, l => l.take w :: takeChunks w n (l.drop w)

/-- The rows of the buffer, in order: row `i` is the flat data of the `i`-th
sub-tensor along the leading axis. -/
def NDArr.rows (a : NDArr) : List (List Nat) := takeChunks a.rowSize a.len a.data

/-- Build an ndarray of trailing shape `tail` from a list of rows. -/
def NDArr.fromRows (d : DType) (tail : List Nat) (rs : List (List Nat)) : NDArr :=
  ⟨d, rs.length :: tail, (rs.map id).flatten⟩

/-- Embedding of `np.stack(list_of_arrays)` along a new leading axis: fails
with `ValueError` on an empty list or on heterogeneous shapes; otherwise the
result has shape `(len, *shape)` and the concatenated data.  (Numpy dtype
promotion across inputs is not modelled; every use below has inputs of one
dtype.) -/
def np_stack (ls : List NDArr) : Except PyErr NDArr :=
  match ls with
  | [] => .error (.valueError "need at least one array to stack")
  | a :: rest =>
    if rest.all (fun b => b.shape == a.shape) then
      .ok ⟨a.dtype, ls.length :: a.shape, (ls.map NDArr.data).flatten⟩
    else .error (.valueError "all input arrays must have the same shape")

/-- Embedding of `np.stack(arr)` applied to a single ndarray, which numpy
iterates over its leading axis: identical logical content in a freshly
allocated buffer for a nonempty leading axis; `ValueError` when the leading
axis is 0 (nothing to stack); `TypeError` on a 0-d array (not iterable). -/
def np_stack_nd (a : NDArr) : Except PyErr NDArr :=
  match a.shape with
  | [] => .error (.typeError "iteration over a 0-d array")
  | 0 :: _ => .error (.valueError "need at least one array to stack")
  | (n + 1) :: rest => .ok ⟨a.dtype, (n + 1) :: rest, a.data⟩

/-- Embedding of `np.concatenate` along axis 0: fails with `ValueError` on
an empty list, 0-d inputs, or mismatched ranks / trailing dims; otherwise
sums the leading dims and concatenates the data.  (Dtype promotion is not
modelled; every use below has inputs of one dtype.) -/
def np_concatenate (ls : List NDArr) : Except PyErr NDArr :=
  match ls with
  | [] => .error (.valueError "need at least one array to concatenate")
  | a :: rest =>
    if a.shape == [] then .error (.valueError "zero-dimensional arrays cannot be concatenated")
    else if rest.all (fun b => b.shape.length == a.shape.length && b.shape.tail == a.shape.tail) then
      .ok ⟨a.dtype, (ls.map NDArr.len).sum :: a.shape.tail, (ls.map NDArr.data).flatten⟩
    else .error (.valueError "all the input array dimensions except for the concatenation axis must match exactly")

/-- The extension array: wraps the backing buffer `self._ndarray`.  (Buffer
aliasing is modelled separately in the `Alias` section.) -/
structure TensorArray where
  buf : NDArr
deriving DecidableEq, Repr

/-- Trailing rank check at the end of `TensorArray.__init__`:
`if self.tensor_ndim < 2: raise ValueError(...)`. -/
def TensorArray.rankCheck (nd : NDArr) : Except PyErr TensorArray :=
  if nd.shape.length < 2 then
    .error (.valueError "Tensor data be at least 2D, including column dimension.")
  else .ok ⟨nd⟩

/-- Embedding of `TensorArray.__init__` on a list of sub-arrays (the
`np.stack(data)` branch): a `ValueError` from `np.stack` is caught and,
since the input is not an ndarray, re-raised as the dedicated message. -/
def TensorArray.mkFromList (data : List NDArr) : Except PyErr TensorArray :=
  match np_stack data with
  | .ok nd => TensorArray.rankCheck nd
  | .error _ => .error (.valueError "Incompatible data found at TensorArray initialization")

/-- Embedding of `TensorArray.__init__` on an ndarray: `np.stack(data)` is
attempted; on `ValueError` (empty leading axis) the ndarray is kept as-is
(`self._ndarray = data`); other exceptions propagate; then the rank check. -/
def TensorArray.mkFromNd (a : NDArr) : Except PyErr TensorArray :=
  match np_stack_nd a with
  | .ok nd => TensorArray.rankCheck nd
  | .error (.valueError _) => TensorArray.rankCheck a
  | .error e => .error e

/-- Embedding of `TensorArray.__init__` on an existing TensorArray: the
backing buffer is adopted directly (`self._ndarray = data._ndarray`),
followed by the rank check. -/
def TensorArray.mkFromTA (t : TensorArray) : Except PyErr TensorArray :=
  TensorArray.rankCheck t.buf

/-- Embedding of `TensorArray._from_sequence(scalars, dtype, copy)` on a
list of sub-arrays: it ignores `dtype` and `copy` and just calls the
constructor. -/
def TensorArray.from_sequence (scalars : List NDArr) : Except PyErr TensorArray :=
  TensorArray.mkFromList scalars

/-- Embedding of `TensorArray._concat_same_type`:
`cls(np.concatenate([arr._ndarray for arr in to_concat]))`. -/
def TensorArray.concat_same_type (ts : List TensorArray) : Except PyErr TensorArray := do
  let nd ← np_concatenate (ts.map TensorArray.buf)
  TensorArray.mkFromNd nd

/-- Number of rows, `TensorArray.__len__` (`self._ndarray.shape[0]`). -/
def TensorArray.len (t : TensorArray) : Nat := t.buf.len

/-- Embedding of `TensorArray.isna`:
`np.any(np.isnan(self._ndarray), axis=tuple(range(1, self.tensor_ndim)))`,
i.e. one Bool per row, true iff some scalar of that row is NaN. -/
def TensorArray.isna (t : TensorArray) : List Bool :=
  t.buf.rows.map (fun r => r.any (isNaNBits t.buf.dtype))

/-- Python-style wraparound of a single index into `n` rows. -/
def wrapIdx (n : Nat) (i : Int) : Nat := (if i < 0 then i + n else i).toNat

/-- Embedding of `pandas.core.algorithms.take(arr, indices, allow_fill,
fill_value)` on the backing ndarray, gathering along axis 0.

With `allow_fill = False` it is `arr.take(indices)` (numpy semantics):
negative indices count from the end, any index outside `[-n, n)` raises
`IndexError`.

With `allow_fill = True` it first runs `validate_indices`: any index below
`-1` raises `ValueError`, then any index at or above `n` raises
`IndexError`; then `take_nd` maps `-1` to a row filled with `fill_value`
(`None` defaults to `np.nan`, modelled by `nanBits` — meaningful for
floating dtypes only, see `nanBits`). -/
def pd_take (a : NDArr) (indices : List Int) (allow_fill : Bool)
    (fill_value : Option Nat) : Except PyErr NDArr :=
  let n := a.len
  if allow_fill then
    if indices.any (fun i => i < -1) then
      .error (.valueError "indices contains values less than allowed")
    else if indices.any (fun i => (n : Int) ≤ i) then
      .error (.indexError "indices are out-of-bounds")
    else
      let fill := List.replicate a.rowSize (fill_value.getD (nanBits a.dtype))
      .ok (NDArr.fromRows a.dtype a.shape.tail
        (indices.map (fun i => if i = -1 then fill else a.rows.getD i.toNat [])))
  else
    if indices.all (fun i => -(n : Int) ≤ i && i < (n : Int)) then
      .ok (NDArr.fromRows a.dtype a.shape.tail
        (indices.map (fun i => a.rows.getD (wrapIdx n i) [])))
    else
      .error (.indexError "index out of bounds")

/-- Embedding of `TensorArray.take`: delegate to the pandas take on the
backing buffer, then wrap the result through the constructor. -/
def TensorArray.take (t : TensorArray) (indices : List Int) (allow_fill : Bool)
    (fill_value : Option Nat) : Except PyErr TensorArray := do
  let nd ← pd_take t.buf indices allow_fill fill_value
  TensorArray.mkFromNd nd

/-!  Wire extension type (`ArrowTensorType`) and its metadata blob. -/

/-- Embedding of `functools.reduce(operator.mul, l)`: left fold of
multiplication with the first element as the seed; raises `TypeError` on an
empty sequence (no seed). -/
def reduceMul : List Nat → Except PyErr Nat
  | [] => .error (.typeError "reduce of empty iterable with no seed value")
  | x :: xs => .ok (xs.foldl (· * ·) x)

/-- The parametrized wire extension type: per-element shape (excluding the
row axis), primitive subtype, and the byte width of the fixed-size binary
storage cell computed in `ArrowTensorType.__init__` as
`pa.binary(size * subtype.bit_width // 8)`. -/
structure ArrowTensorType where
  shape : List Nat
  subtype : DType
  storage_width : Nat
deriving DecidableEq, Repr

/-- Embedding of `ArrowTensorType.__init__(shape, subtype)`. -/
def mkArrowTensorType (shape : List Nat) (subtype : DType) :
    Except PyErr ArrowTensorType := do
  let size ← reduceMul shape
  .ok ⟨shape, subtype, size * subtype.bit_width / 8⟩

/-- JSON document values, the image of `json.dumps` / preimage of
`json.loads`.  The metadata blob of the wire type is the serialized text of
such a document; the text encoding itself is the json library's bijection
on this fragment and is modelled by the document value. -/
inductive JVal where
  | jnum (n : Nat)
  | jstr (s : String)
  | jarr (xs : List JVal)
  | jobj (fields : List (String × JVal))

/-- Embedding of `ArrowTensorType.__arrow_ext_serialize__`:
`json.dumps(dict(shape=self.shape, subtype=str(self.subtype))).encode()`. -/
def ArrowTensorType.arrow_ext_serialize (t : ArrowTensorType) : JVal :=
  .jobj [("shape", .jarr (t.shape.map JVal.jnum)), ("subtype", .jstr t.subtype.str)]

/-- Python dict lookup `metadata[k]` on a decoded JSON object; a missing key
raises `KeyError`. -/
def jlookup (fields : List (String × JVal)) (k : String) : Except PyErr JVal :=
  match fields.find? (fun p => p.1 == k) with
  | some p => .ok p.2
  | none => .error (.keyError k)

/-- Read a decoded JSON array as a list of integers (the shape entries of
the metadata blob; serialized blobs always hold integers there). -/
def jnats : List JVal → Except PyErr (List Nat)
  | [] => .ok []
  | .jnum n :: rest => do
    let ns ← jnats rest
    .ok (n :: ns)
  | _ => .error (.typeError "shape entries must be integers")

/-- Embedding of `ArrowTensorType.__arrow_ext_deserialize__`: decode the
JSON metadata, read `shape` and `subtype`, resolve the subtype through
`pa.type_for_alias`, and rebuild the instance through the constructor. -/
def arrow_ext_deserialize (serialized : JVal) : Except PyErr ArrowTensorType :=
  match serialized with
  | .jobj fields => do
    let jshape ← jlookup fields "shape"
    let jsub ← jlookup fields "subtype"
    match jshape, jsub with
    | .jarr xs, .jstr name => do
      let shape ← jnats xs
      let subtype ← type_for_alias name
      mkArrowTensorType shape subtype
    | _, _ => .error (.typeError "malformed metadata")
  | _ => .error (.typeError "malformed metadata")

/-!  Encoder / decoder between `TensorArray` and the wire representation. -/

/-- Little-endian byte serialization of one scalar bit pattern into `w`
bytes (`item.tobytes()` on a native little-endian platform). -/
def natToLEBytes : Nat → Nat → List Nat
  | 0, _ => []
  | w + 1, x => (x % 256) :: natToLEBytes w (x / 256)

/-- Little-endian byte deserialization back to a scalar bit pattern. -/
def leBytesToNat : List Nat → Nat
  | [] => 0
  | b :: bs => b + 256 * leBytesToNat bs

/-- Raw bytes of one row sub-tensor, row-major, native (little-endian)
order: `item.tobytes()`. -/
def tensorToBytes (w : Nat) (row : List Nat) : List Nat :=
  (row.map (natToLEBytes w)).flatten

/-- Embedding of `np.frombuffer(bytes, dtype)`: reinterpret the raw bytes
as a flat vector of scalars of byte width `w`; a buffer whose size is not a
multiple of the item size raises `ValueError`. -/
def np_frombuffer (w : Nat) (bytes : List Nat) : Except PyErr (List Nat) :=
  if w ≠ 0 ∧ bytes.length % w = 0 then
    .ok ((takeChunks w (bytes.length / w) bytes).map leBytesToNat)
  else .error (.valueError "buffer size must be a multiple of element size")

/-- Embedding of `.reshape(shape)` on a flat vector of scalars: requires the
element count to match the new shape. -/
def np_reshape (d : DType) (scalars : List Nat) (shape : List Nat) :
    Except PyErr NDArr :=
  if scalars.length = shape.prod then .ok ⟨d, shape, scalars⟩
  else .error (.valueError "cannot reshape array")

/-- One encoded column: the wire extension type together with the list of
fixed-size binary storage cells (one cell of raw bytes per row). -/
structure EncodedCol where
  ty : ArrowTensorType
  cells : List (List Nat)
deriving DecidableEq, Repr

/-- Embedding of `TensorArray.__arrow_array__`: the subtype is the buffer
dtype (`pa.from_numpy_dtype`), the wire type is built from the trailing
shape, and the storage holds `item.tobytes()` for each row.  `pa.array`
with a fixed-width binary type rejects a cell of the wrong width. -/
def TensorArray.arrow_array (t : TensorArray) : Except PyErr EncodedCol := do
  let subtype := t.buf.dtype
  let ty ← mkArrowTensorType t.buf.shape.tail subtype
  let cells := t.buf.rows.map (tensorToBytes subtype.byte_width)
  if cells.all (fun c => c.length == ty.storage_width) then
    .ok ⟨ty, cells⟩
  else .error (.valueError "pa.array: invalid fixed-size binary cell width")

/-- Sequential fallible mapping over a list (the decoding loop
`for tensor in arr.storage.to_numpy(...): tensors.append(...)`, which stops
at the first raised exception). -/
def mapExcept {ε α β : Type} (f : α → Except ε β) : List α → Except ε (List β)
  | [] => .ok []
  | a :: as => do
    let b ← f a
    let bs ← mapExcept f as
    .ok (b :: bs)

/-- Embedding of `TensorDtype.__from_arrow__` on a single-chunk input (a
`pa.Array`; the chunk loop degenerates to one chunk): each cell is
reinterpreted through `np.frombuffer(...).reshape(shape)`, the per-row
tensors are stacked (`TensorArray(np.stack(tensors))`), and the constructor
runs on the stacked ndarray. -/
def TensorDtype.from_arrow (col : EncodedCol) : Except PyErr TensorArray := do
  let tensors ← mapExcept (fun bytes => do
    let scalars ← np_frombuffer col.ty.subtype.byte_width bytes
    np_reshape col.ty.subtype scalars col.ty.shape) col.cells
  let nd ← np_stack tensors
  TensorArray.mkFromNd nd

/-!  Numpy broadcasting, `np.where`, boolean-mask assignment, and the
patched `ExtensionBlock.where` of src/tensorpandas/_patch_1_3.py. -/

/-- Broadcast two axis lengths (equal, or one of them 1). -/
def broadcastDim (a b : Nat) : Option Nat :=
  if a = b then some a else if a = 1 then some b else if b = 1 then some a else none

/-- Numpy shape broadcasting: align the two shapes on the right, padding the
shorter one with 1s, and combine dimensionwise. -/
def bcast2 (s t : List Nat) : Option (List Nat) :=
  let n := max s.length t.length
  let s1 := List.replicate (n - s.length) 1 ++ s
  let t1 := List.replicate (n - t.length) 1 ++ t
  (s1.zip t1).mapM (fun p => broadcastDim p.1 p.2)

/-- All multi-indices of a shape, in row-major order. -/
def allIndices : List Nat → List (List Nat)
  | [] => [[]]
  | d :: ds => (List.range d).flatMap (fun i => (allIndices ds).map (i :: ·))

/-- Project a multi-index of a broadcast result shape down to an operand of
the given (right-aligned) shape: keep the trailing coordinates and clamp
those on broadcast (length-1) axes to 0. -/
def projIndex (ix : List Nat) (shape : List Nat) : List Nat :=
  ((ix.drop (ix.length - shape.length)).zip shape).map (fun p => if p.2 = 1 then 0 else p.1)

/-- Row-major flat offset of a multi-index in a shape. -/
def flatIndex : List Nat → List Nat → Nat
  | _ :: ds, i :: ix => i * ds.prod + flatIndex ds ix
  | _, _ => 0

/-- Scalar of the ndarray at a multi-index. -/
def NDArr.item (a : NDArr) (ix : List Nat) : Nat :=
  a.data.getD (flatIndex a.shape ix) 0

/-- Model of a boolean ndarray (the mask `cond` after `extract_bool_array`). -/
structure BArr where
  shape : List Nat
  data : List Bool
deriving DecidableEq, Repr

/-- Entry of the boolean ndarray at a multi-index. -/
def BArr.item (c : BArr) (ix : List Nat) : Bool :=
  c.data.getD (flatIndex c.shape ix) false

/-- Embedding of `np.broadcast_to(v, s)`: defined when `v`'s shape, right
aligned with `s`, matches `s` dimensionwise up to length-1 axes. -/
def broadcastTo (v : NDArr) (s : List Nat) : Option NDArr :=
  if v.shape.length ≤ s.length then
    if ((List.replicate (s.length - v.shape.length) 1 ++ v.shape).zip s).all
        (fun p => p.1 == p.2 || p.1 == 1) then
      some ⟨v.dtype, s, (allIndices s).map (fun ix => v.item (projIndex ix v.shape))⟩
    else none
  else none

/-- Replace the rows at the true positions of the mask, in order, with the
successive replacement rows. -/
def assignLoop : List (List Nat) → List Bool → List (List Nat) → List (List Nat)
  | [], _, _ => []
  | r :: rs, [], _ => r :: rs
  | r :: rs, b :: bs, vr =>
    if b then vr.headD r :: assignLoop rs bs vr.tail
    else r :: assignLoop rs bs vr

/-- Embedding of numpy boolean-mask assignment `a[mask] = v` with a 1-D row
mask: the value must broadcast to `(m, *trailing)` where `m` counts the
selected rows; otherwise `ValueError`.  A mask of the wrong length raises
`IndexError`. -/
def maskAssign (a : NDArr) (mask : List Bool) (v : NDArr) : Except PyErr NDArr :=
  if mask.length ≠ a.len then
    .error (.indexError "boolean index did not match indexed array along axis 0")
  else
    match broadcastTo v (mask.count true :: a.shape.tail) with
    | none => .error (.valueError "NumPy boolean array indexing assignment cannot broadcast input values to the masked output")
    | some vb => .ok ⟨a.dtype, a.shape, (assignLoop a.rows mask vb.rows).flatten⟩

/-- Embedding of `np.where(c, a, b)`: broadcast the three operands together
(`ValueError` when the shapes do not broadcast) and select elementwise. -/
def np_where (c : BArr) (a b : NDArr) : Except PyErr NDArr :=
  match bcast2 c.shape a.shape with
  | none => .error (.valueError "operands could not be broadcast together")
  | some s1 =>
    match bcast2 s1 b.shape with
    | none => .error (.valueError "operands could not be broadcast together")
    | some s =>
      .ok ⟨a.dtype, s, (allIndices s).map (fun ix =>
        if c.item (projIndex ix c.shape) then a.item (projIndex ix a.shape)
        else b.item (projIndex ix b.shape))⟩

/-- Embedding of the patched `ExtensionBlock.where` of
src/tensorpandas/_patch_1_3.py for a block backed by a `TensorArray`, with
`other` an ndarray replacement (a single tensor or a per-row array of
tensors) and `cond` the 1-D row mask after `extract_bool_array`.

Because `self.dtype.is_dtype("Tensor")` holds, `set_other` is `other`
itself (not `other[icond]`).  The try branch is
`result = self.values.copy(); result[icond] = set_other`, i.e. numpy
boolean-mask assignment into the copied buffer; `supports_setitem = false`
simulates a storage whose `__setitem__` raises
`NotImplementedError`/`TypeError`, which the except branch recovers as
`type(self.values)._from_sequence(np.where(cond, self.values, other))`. -/
def block_where (t : TensorArray) (cond : List Bool) (other : NDArr)
    (supports_setitem : Bool) : Except PyErr TensorArray :=
  let icond := cond.map (!·)
  if supports_setitem then do
    let nd ← maskAssign t.buf icond other
    .ok ⟨nd⟩
  else do
    let w ← np_where ⟨[cond.length], cond⟩ t.buf other
    TensorArray.mkFromNd w

/-!  Aliasing model: which operations share the backing buffer.

A `Mem` is the set of live ndarray buffers; a `TensorArray` handle is the
index of the ndarray object it holds as `self._ndarray`.  Each operation
below mirrors the object graph produced by the corresponding Python
expression on an already-constructed (hence rank-valid) array. -/

/-- Live ndarray buffers; a buffer index models object identity of an
`np.ndarray`. -/
structure Mem where
  bufs : List NDArr
deriving DecidableEq, Repr

/-- Allocate a fresh ndarray object. -/
def Mem.alloc (m : Mem) (a : NDArr) : Mem × Nat :=
  (⟨m.bufs ++ [a]⟩, m.bufs.length)

/-- Dereference a buffer index. -/
def Mem.read (m : Mem) (r : Nat) : NDArr :=
  m.bufs.getD r ⟨.int32, [], []⟩

/-- In-place replacement of row `i` of an ndarray (the effect of
`self._ndarray[i] = row`). -/
def NDArr.setRow (a : NDArr) (i : Nat) (row : List Nat) : NDArr :=
  ⟨a.dtype, a.shape, (a.rows.set i row).flatten⟩

/-- In-place indexed assignment through a buffer reference:
`TensorArray.__setitem__` writes into the referenced buffer. -/
def aliasSetRow (m : Mem) (r i : Nat) (row : List Nat) : Mem :=
  ⟨m.bufs.set r ((m.read r).setRow i row)⟩

/-- `TensorArray.__init__` on an existing TensorArray adopts the same
ndarray object: `self._ndarray = data._ndarray`. -/
def aliasInitFromTA (m : Mem) (r : Nat) : Mem × Nat := (m, r)

/-- `TensorArray._from_sequence` on an existing TensorArray is
`cls(scalars)`, which adopts the same ndarray object whatever the `copy`
flag says. -/
def aliasFromSequenceTA (m : Mem) (r : Nat) (copyFlag : Bool) : Mem × Nat :=
  (m, r)

/-- `TensorArray.view()` is `self.__class__(self._ndarray)`: the ndarray
constructor branch runs `np.stack(data)`, which allocates a fresh buffer
when the leading axis is nonempty; only the `ValueError` fallback for an
empty leading axis keeps the very same ndarray object.  (The 0-d `TypeError`
case cannot arise for a constructed array, whose rank is at least 2.) -/
def aliasView (m : Mem) (r : Nat) : Mem × Nat :=
  match np_stack_nd (m.read r) with
  | .ok nd => m.alloc nd
  | .error _ => (m, r)

/-- `TensorArray.copy()` is `self.__class__(self._ndarray.copy())`: the
deep copy allocates a fresh ndarray, and the constructor branch may stack
it into yet another fresh buffer; the result never aliases the source. -/
def aliasCopy (m : Mem) (r : Nat) : Mem × Nat :=
  let p := m.alloc (m.read r)
  match np_stack_nd (p.1.read p.2) with
  | .ok nd => p.1.alloc nd
  | .error _ => p

/-!  Shared lemmas. -/

@[simp] lemma except_bind_ok {ε α β : Type} (a : α) (f : α → Except ε β) :
    (Except.ok a >>= f : Except ε β) = f a := rfl

@[simp] lemma except_bind_error {ε α β : Type} (e : ε) (f : α → Except ε β) :
    (Except.error e >>= f : Except ε β) = Except.error e := rfl

lemma foldl_mul_eq_prod (xs : List Nat) (x : Nat) :
    xs.foldl (· * ·) x = x * xs.prod := by
  induction xs generalizing x with
  | nil => simp
  | cons y ys ih => simp [List.foldl_cons, ih, List.prod_cons, mul_assoc]

lemma reduceMul_cons (x : Nat) (xs : List Nat) :
    reduceMul (x :: xs) = .ok (x :: xs).prod := by
  simp [reduceMul, foldl_mul_eq_prod, List.prod_cons]

lemma mkArrowTensorType_cons (x : Nat) (xs : List Nat) (d : DType) :
    mkArrowTensorType (x :: xs) d =
      .ok ⟨x :: xs, d, (x :: xs).prod * d.bit_width / 8⟩ := by
  simp [mkArrowTensorType, reduceMul_cons]

lemma type_for_alias_str (d : DType) : type_for_alias d.str = .ok d := by
  cases d <;> rfl

@[simp] lemma jnats_jnum_cons (n : Nat) (rest : List JVal) :
    jnats (JVal.jnum n :: rest) =
      (jnats rest) >>= (fun ns => Except.ok (n :: ns)) := rfl

@[simp] lemma jnats_map_jnum (l : List Nat) : jnats (l.map JVal.jnum) = .ok l := by
  induction l with
  | nil => rfl
  | cons x xs ih => simp [ih]

lemma np_stack_of_all (a : NDArr) (rest : List NDArr)
    (h : ∀ b ∈ rest, b.shape = a.shape) :
    np_stack (a :: rest) =
      .ok ⟨a.dtype, (a :: rest).length :: a.shape,
        ((a :: rest).map NDArr.data).flatten⟩ := by
  have hall : rest.all (fun b => b.shape == a.shape) = true := by
    rw [List.all_eq_true]
    intro b hb
    exact beq_iff_eq.mpr (h b hb)
  simp only [np_stack]
  rw [hall]
  simp

lemma takeChunks_length {α : Type} (w n : Nat) (l : List α) :
    (takeChunks w n l).length = n := by
  induction n generalizing l with
  | zero => rfl
  | succ k ih => simp [takeChunks, ih]

lemma rankCheck_ok (a : NDArr) (h : 2 ≤ a.shape.length) :
    TensorArray.rankCheck a = .ok ⟨a⟩ := by
  simp [TensorArray.rankCheck, Nat.not_lt.mpr h]

lemma rankCheck_error (a : NDArr) (h : a.shape.length < 2) :
    TensorArray.rankCheck a =
      .error (.valueError "Tensor data be at least 2D, including column dimension.") := by
  simp [TensorArray.rankCheck, h]

lemma mkFromList_of_stack_ok (ls : List NDArr) (nd : NDArr)
    (h : np_stack ls = .ok nd) (h2 : 2 ≤ nd.shape.length) :
    TensorArray.mkFromList ls = .ok ⟨nd⟩ := by
  unfold TensorArray.mkFromList
  rw [h]
  exact rankCheck_ok _ h2

lemma mkFromList_of_stack_ok_rankfail (ls : List NDArr) (nd : NDArr)
    (h : np_stack ls = .ok nd) (h2 : nd.shape.length < 2) :
    TensorArray.mkFromList ls =
      .error (.valueError "Tensor data be at least 2D, including column dimension.") := by
  unfold TensorArray.mkFromList
  rw [h]
  exact rankCheck_error _ h2

lemma mkFromList_of_stack_error (ls : List NDArr) (e : PyErr)
    (h : np_stack ls = .error e) :
    TensorArray.mkFromList ls =
      .error (.valueError "Incompatible data found at TensorArray initialization") := by
  unfold TensorArray.mkFromList
  rw [h]

lemma mkFromNd_of_rank2 (a : NDArr) (h : 2 ≤ a.shape.length) :
    TensorArray.mkFromNd a = .ok ⟨a⟩ := by
  rcases a with ⟨d, shape, data⟩
  match shape, h with
  | x :: y :: rest, h2 =>
    have hlt : ¬ ((x :: y :: rest).length < 2) := by
      simp only [List.length_cons]
      omega
    cases x with
    | zero => simp [TensorArray.mkFromNd, np_stack_nd, TensorArray.rankCheck, hlt]
    | succ n => simp [TensorArray.mkFromNd, np_stack_nd, TensorArray.rankCheck, hlt]

/-!  Claim C3. -/

/-- C3: for every wire extension type instance with shape `(d1, …, dk)` and
subtype `s`, the byte width of one storage cell equals
`product(shape) * bit_width(s) / 8`; it is computed by the constructor from
shape and subtype alone (every instance, including a deserialized one, goes
through this constructor), never stored separately. -/
theorem claim_C3_cell_width (shape : List Nat) (subtype : DType)
    (ty : ArrowTensorType) (h : mkArrowTensorType shape subtype = .ok ty) :
    ty.shape = shape ∧ ty.subtype = subtype ∧
    ty.storage_width = shape.prod * subtype.bit_width / 8 := by
  cases shape with
  | nil => simp [mkArrowTensorType, reduceMul] at h
  | cons x xs =>
    rw [mkArrowTensorType_cons] at h
    cases h
    exact ⟨rfl, rfl, rfl⟩

/-- Witness for C3 at the spec example shape (3,4), float32: cell width
`3*4*32/8 = 48` bytes. -/
theorem claim_C3_cell_width_witness :
    mkArrowTensorType [3, 4] DType.float32 =
      .ok ⟨[3, 4], DType.float32, 48⟩ ∧
    (⟨[3, 4], DType.float32, 48⟩ : ArrowTensorType).storage_width =
      ([3, 4] : List Nat).prod * DType.float32.bit_width / 8 :=
  ⟨by rfl, (claim_C3_cell_width [3, 4] DType.float32 _ (by rfl)).2.2⟩

/-!  Claim C2. -/

/-- C2: for every valid wire extension type instance (non-empty shape of
positive dims, supported primitive subtype), deserializing the serialized
metadata blob, with no other context, reconstructs an instance equal to the
original (same shape, same subtype, hence same cell width). -/
theorem claim_C2_metadata_roundtrip (shape : List Nat) (subtype : DType)
    (ty : ArrowTensorType) (hne : shape ≠ []) (hpos : ∀ d ∈ shape, 0 < d)
    (h : mkArrowTensorType shape subtype = .ok ty) :
    arrow_ext_deserialize ty.arrow_ext_serialize = .ok ty := by
  cases shape with
  | nil => exact absurd rfl hne
  | cons x xs =>
    rw [mkArrowTensorType_cons] at h
    cases h
    simp [ArrowTensorType.arrow_ext_serialize, arrow_ext_deserialize, jlookup,
      List.find?, jnats_map_jnum, type_for_alias_str, mkArrowTensorType_cons]

/-- Witness for C2 at the spec example: shape (3,4), subtype float32. -/
theorem claim_C2_metadata_roundtrip_witness :
    ([3, 4] : List Nat) ≠ [] ∧
    arrow_ext_deserialize
        (ArrowTensorType.arrow_ext_serialize ⟨[3, 4], DType.float32, 48⟩) =
      .ok ⟨[3, 4], DType.float32, 48⟩ :=
  ⟨by decide,
    claim_C2_metadata_roundtrip [3, 4] DType.float32 _ (by decide)
      (by decide) (by rfl)⟩

/-!  Claim C6. -/

/-- C6: for every Tensor Array of N rows, `isna` returns a boolean sequence
of length N whose entry `i` is true iff at least one scalar of row `i` is a
floating NaN — the entry depends only on row `i`, not on other rows. -/
theorem claim_C6_isna (t : TensorArray) :
    t.isna.length = t.len ∧
    ∀ i, i < t.len →
      (t.isna.getD i false = true ↔
        ∃ x ∈ t.buf.rows.getD i [], isNaNBits t.buf.dtype x = true) := by
  have hlen : t.buf.rows.length = t.len := takeChunks_length _ _ _
  constructor
  · simp [TensorArray.isna, hlen]
  · intro i hi
    have hi' : i < t.buf.rows.length := hlen ▸ hi
    have hget : t.buf.rows[i]? = some t.buf.rows[i] :=
      List.getElem?_eq_getElem hi'
    simp [TensorArray.isna, List.getD_eq_getElem?_getD, List.getElem?_map, hget,
      List.any_eq_true]

/-- Witness for C6: a 2-row float32 array whose first row holds a NaN bit
pattern; entry 0 of `isna` is true. -/
theorem claim_C6_isna_witness :
    (⟨⟨.float32, [2, 2], [0x7fc00000, 0, 1, 2]⟩⟩ : TensorArray).isna.getD 0
        false = true ↔
      ∃ x ∈ (⟨.float32, [2, 2], [0x7fc00000, 0, 1, 2]⟩ : NDArr).rows.getD 0 [],
        isNaNBits DType.float32 x = true :=
  (claim_C6_isna ⟨⟨.float32, [2, 2], [0x7fc00000, 0, 1, 2]⟩⟩).2 0 (by decide)

/-!  Claim C7. -/

/-- C7: constructing from a sequence of equally-shaped sub-arrays stacks
them along a new leading axis; a sequence containing two sub-arrays of
different shapes fails with the shape error (the `ValueError` re-raised in
`TensorArray.__init__` after `np.stack` rejects heterogeneous shapes, the
spec's `ShapeError`). -/
theorem claim_C7_from_sequence :
    (∀ (d : DType) (s : List Nat) (ls : List NDArr), ls ≠ [] → s ≠ [] →
      (∀ b ∈ ls, b.shape = s ∧ b.dtype = d) →
      TensorArray.from_sequence ls =
        .ok ⟨⟨d, ls.length :: s, (ls.map NDArr.data).flatten⟩⟩) ∧
    (∀ ls : List NDArr, (∃ a ∈ ls, ∃ b ∈ ls, a.shape ≠ b.shape) →
      TensorArray.from_sequence ls =
        .error (.valueError "Incompatible data found at TensorArray initialization")) := by
  constructor
  · intro d s ls h0 hs hall
    cases ls with
    | nil => exact absurd rfl h0
    | cons a rest =>
      have ha := hall a (List.mem_cons_self a rest)
      have hstk := np_stack_of_all a rest
        (fun b hb => ((hall b (List.mem_cons_of_mem a hb)).1).trans ha.1.symm)
      have hs1 : 1 ≤ s.length := List.length_pos.mpr hs
      have hlen : 2 ≤ (((a :: rest).length :: a.shape)).length := by
        simp only [List.length_cons, ha.1]
        omega
      rw [TensorArray.from_sequence, mkFromList_of_stack_ok _ _ hstk hlen,
        ha.1, ha.2]
  · intro ls hpair
    obtain ⟨a, haMem, b, hbMem, hab⟩ := hpair
    cases ls with
    | nil => exact absurd haMem (List.not_mem_nil a)
    | cons c rest =>
      rcases hcase : rest.all (fun b => b.shape == c.shape) with _ | _
      · exact mkFromList_of_stack_error _ _
          (by simp only [np_stack]; rw [hcase]; rfl)
      · exfalso
        have hall : ∀ u ∈ c :: rest, u.shape = c.shape := by
          intro u hu
          rcases List.mem_cons.mp hu with h | h
          · rw [h]
          · exact beq_iff_eq.mp (List.all_eq_true.mp hcase u h)
        exact hab ((hall a haMem).trans (hall b hbMem).symm)

/-- Witness for C7: stacking two (2,3) blocks succeeds; mixing shapes (2,3)
and (2,4) fails with the shape error. -/
theorem claim_C7_from_sequence_witness :
    TensorArray.from_sequence
        [⟨.int32, [2, 3], [1, 2, 3, 4, 5, 6]⟩, ⟨.int32, [2, 3], [7, 8, 9, 10, 11, 12]⟩] =
      .ok ⟨⟨.int32, [2, 2, 3], [1, 2, 3, 4, 5, 6, 7, 8, 9, 10, 11, 12]⟩⟩ ∧
    TensorArray.from_sequence
        [⟨.int32, [2, 3], List.replicate 6 0⟩, ⟨.int32, [2, 4], List.replicate 8 0⟩] =
      .error (.valueError "Incompatible data found at TensorArray initialization") :=
  ⟨claim_C7_from_sequence.1 .int32 [2, 3] _ (by decide) (by decide)
      (by decide),
    claim_C7_from_sequence.2 _
      ⟨⟨.int32, [2, 3], List.replicate 6 0⟩, by decide,
        ⟨.int32, [2, 4], List.replicate 8 0⟩, by decide, by decide⟩⟩

/-!  Claim C8. -/

/-- C8: an input whose resulting backing buffer would have fewer than two
logical dimensions — a non-empty flat sequence of scalars, or a 1-D
ndarray — fails with the rank error (the `ValueError` raised by the
`tensor_ndim < 2` check, the spec's `RankError`). -/
theorem claim_C8_rank_rejection :
    (∀ ls : List NDArr, ls ≠ [] → (∀ b ∈ ls, b.shape = []) →
      TensorArray.from_sequence ls =
        .error (.valueError "Tensor data be at least 2D, including column dimension.")) ∧
    (∀ nd : NDArr, nd.shape.length = 1 →
      TensorArray.mkFromNd nd =
        .error (.valueError "Tensor data be at least 2D, including column dimension.")) := by
  constructor
  · intro ls h0 hall
    cases ls with
    | nil => exact absurd rfl h0
    | cons a rest =>
      have ha := hall a (List.mem_cons_self a rest)
      have hstk := np_stack_of_all a rest
        (fun b hb => ((hall b (List.mem_cons_of_mem a hb))).trans ha.symm)
      have h2 : (((a :: rest).length :: a.shape)).length < 2 := by
        simp only [List.length_cons, ha, List.length_nil]
        omega
      exact mkFromList_of_stack_ok_rankfail _ _ hstk h2
  · intro nd hnd
    rcases nd with ⟨d, shape, data⟩
    match shape, hnd with
    | [k], _ =>
      cases k with
      | zero => simp [TensorArray.mkFromNd, np_stack_nd, TensorArray.rankCheck]
      | succ m => simp [TensorArray.mkFromNd, np_stack_nd, TensorArray.rankCheck]

/-- Witness for C8: a flat sequence of two scalars, and a flat 1-D ndarray,
both rejected with the rank error. -/
theorem claim_C8_rank_rejection_witness :
    TensorArray.from_sequence [⟨.float64, [], [1]⟩, ⟨.float64, [], [2]⟩] =
      .error (.valueError "Tensor data be at least 2D, including column dimension.") ∧
    TensorArray.mkFromNd ⟨.float64, [3], [1, 2, 3]⟩ =
      .error (.valueError "Tensor data be at least 2D, including column dimension.") :=
  ⟨claim_C8_rank_rejection.1 _ (by decide) (by decide),
    claim_C8_rank_rejection.2 _ (by decide)⟩

/-!  Claim C9. -/

lemma takeChunks_append {α : Type} (w n1 n2 : Nat) (l1 l2 : List α)
    (h : l1.length = n1 * w) :
    takeChunks w (n1 + n2) (l1 ++ l2) =
      takeChunks w n1 l1 ++ takeChunks w n2 l2 := by
  induction n1 generalizing l1 with
  | zero =>
    have : l1 = [] := List.eq_nil_of_length_eq_zero (by simpa using h)
    subst this
    simp [takeChunks]
  | succ k ih =>
    have hw : w ≤ l1.length := by
      rw [h, Nat.succ_mul]
      omega
    have hstep : (k + 1) + n2 = (k + n2) + 1 := by omega
    rw [hstep]
    simp only [takeChunks, List.cons_append]
    rw [List.take_append_of_le_length hw, List.drop_append_of_le_length hw]
    congr 1
    exact ih (l1.drop w) (by rw [List.length_drop, h, Nat.succ_mul]; omega)

lemma rows_flatten_list (d : DType) (s : List Nat) (ts : List NDArr)
    (h : ∀ u ∈ ts, u.shape = u.len :: s ∧ u.data.length = u.len * s.prod) :
    (⟨d, (ts.map NDArr.len).sum :: s, (ts.map NDArr.data).flatten⟩ : NDArr).rows
      = (ts.map NDArr.rows).flatten := by
  induction ts with
  | nil => rfl
  | cons u us ih =>
    have hu := h u (List.mem_cons_self u us)
    have hrs : u.rowSize = s.prod := by
      rw [NDArr.rowSize, hu.1]
      rfl
    simp only [List.map_cons, List.flatten_cons, List.sum_cons]
    show takeChunks s.prod (u.len + (us.map NDArr.len).sum)
        (u.data ++ (us.map NDArr.data).flatten) = u.rows ++ _
    rw [takeChunks_append _ _ _ _ _ hu.2]
    congr 1
    · rw [NDArr.rows, hrs]
    · exact ih (fun v hv => h v (List.mem_cons_of_mem _ hv))

/-- C9: concatenating Tensor Arrays that share trailing element shape `s`
and dtype `d` yields one array whose length is the sum of the input
lengths, whose trailing shape and dtype are unchanged, and whose data (and
rows) are the inputs' data (rows) in input order. -/
theorem claim_C9_concat (d : DType) (s : List Nat) (ts : List TensorArray)
    (h0 : ts ≠ []) (hs : s ≠ [])
    (hsh : ∀ u ∈ ts, u.buf.shape = u.buf.len :: s ∧ u.buf.dtype = d)
    (hwf : ∀ u ∈ ts, u.buf.wf) :
    TensorArray.concat_same_type ts =
      .ok ⟨⟨d, (ts.map TensorArray.len).sum :: s,
        (ts.map (fun u => u.buf.data)).flatten⟩⟩ ∧
    (⟨d, (ts.map TensorArray.len).sum :: s,
        (ts.map (fun u => u.buf.data)).flatten⟩ : NDArr).rows =
      (ts.map (fun u => u.buf.rows)).flatten := by
  have hs1 : 1 ≤ s.length := List.length_pos.mpr hs
  have hdata : ∀ u ∈ ts, u.buf.data.length = u.buf.len * s.prod := by
    intro u hu
    have := (hwf u hu).1
    rw [this, (hsh u hu).1, List.prod_cons]
  constructor
  · cases ts with
    | nil => exact absurd rfl h0
    | cons t0 rest =>
      have h00 := hsh t0 (List.mem_cons_self t0 rest)
      have hne : (t0.buf.shape == []) = false := by
        rw [h00.1]
        rfl
      have hall : (rest.map TensorArray.buf).all
          (fun b => b.shape.length == t0.buf.shape.length &&
            b.shape.tail == t0.buf.shape.tail) = true := by
        rw [List.all_eq_true]
        intro b hb
        obtain ⟨u, hu, rfl⟩ := List.mem_map.mp hb
        have hu' := hsh u (List.mem_cons_of_mem _ hu)
        rw [hu'.1, h00.1]
        simp
      have hcat : np_concatenate ((t0 :: rest).map TensorArray.buf) =
          .ok ⟨t0.buf.dtype,
            (((t0 :: rest).map TensorArray.buf).map NDArr.len).sum :: t0.buf.shape.tail,
            (((t0 :: rest).map TensorArray.buf).map NDArr.data).flatten⟩ := by
        simp only [List.map_cons, np_concatenate]
        rw [hne, hall]
        simp
      rw [TensorArray.concat_same_type, hcat]
      have htail : t0.buf.shape.tail = s := by
        rw [h00.1]
        rfl
      have hrank : 2 ≤ ((((t0 :: rest).map TensorArray.buf).map NDArr.len).sum
          :: t0.buf.shape.tail).length := by
        simp only [List.length_cons, htail]
        omega
      rw [except_bind_ok, mkFromNd_of_rank2 _ hrank]
      rw [htail, h00.2]
      simp only [List.map_cons, List.map_map, List.sum_cons, List.flatten_cons]
      exact rfl
  · have := rows_flatten_list d s (ts.map TensorArray.buf)
      (by
        intro u hu
        obtain ⟨v, hv, rfl⟩ := List.mem_map.mp hu
        exact ⟨(hsh v hv).1, hdata v hv⟩)
    simpa [TensorArray.len, Function.comp] using this

/-- Witness for C9: concatenating a 1-row and a 2-row int32 array of
element shape (2) gives the 3-row array with the rows in order. -/
theorem claim_C9_concat_witness :
    TensorArray.concat_same_type
        [⟨⟨.int32, [1, 2], [1, 2]⟩⟩, ⟨⟨.int32, [2, 2], [3, 4, 5, 6]⟩⟩] =
      .ok ⟨⟨.int32, [3, 2], [1, 2, 3, 4, 5, 6]⟩⟩ := by
  have h := (claim_C9_concat .int32 [2]
    [⟨⟨.int32, [1, 2], [1, 2]⟩⟩, ⟨⟨.int32, [2, 2], [3, 4, 5, 6]⟩⟩]
    (by decide) (by decide) (by decide) (by decide)).1
  simpa using h

/-!  Claim C4. -/

/-- C4: `take` semantics.  Without fill, a negative index `i` selects row
`N + i` (Python wraparound) and any index outside `[-N, N)` raises
`IndexError`.  With fill, `-1` selects a row filled with `fill_value`
(default: the NA sentinel `np.nan`, broadcast to the element shape), any
index below `-1` raises `ValueError`, and any index at or above `N` raises
`IndexError`.  The default-NaN fill is stated for a supplied fill value or
a floating dtype (integer NaN-fill triggers a dtype promotion outside the
model). -/
theorem claim_C4_take (t : TensorArray) (indices : List Int) (fv : Option Nat)
    (hrank : 2 ≤ t.buf.shape.length)
    (hfv : fv.isSome = true ∨ t.buf.dtype = .float16 ∨ t.buf.dtype = .float32 ∨
      t.buf.dtype = .float64) :
    (t.take indices false fv =
      if indices.all (fun i =>
          decide (-(t.buf.len : Int) ≤ i) && decide (i < (t.buf.len : Int))) then
        .ok ⟨NDArr.fromRows t.buf.dtype t.buf.shape.tail
          (indices.map (fun i => t.buf.rows.getD (wrapIdx t.buf.len i) []))⟩
      else .error (.indexError "index out of bounds")) ∧
    (t.take indices true fv =
      if indices.any (fun i => decide (i < -1)) then
        .error (.valueError "indices contains values less than allowed")
      else if indices.any (fun i => decide ((t.buf.len : Int) ≤ i)) then
        .error (.indexError "indices are out-of-bounds")
      else
        .ok ⟨NDArr.fromRows t.buf.dtype t.buf.shape.tail
          (indices.map (fun i =>
            if i = -1 then
              List.replicate t.buf.rowSize (fv.getD (nanBits t.buf.dtype))
            else t.buf.rows.getD i.toNat []))⟩) := by
  have htl : 1 ≤ t.buf.shape.tail.length := by
    rw [List.length_tail]
    omega
  have hrk : ∀ rs : List (List Nat),
      TensorArray.mkFromNd (NDArr.fromRows t.buf.dtype t.buf.shape.tail rs) =
        .ok ⟨NDArr.fromRows t.buf.dtype t.buf.shape.tail rs⟩ := by
    intro rs
    apply mkFromNd_of_rank2
    simp only [NDArr.fromRows, List.length_cons]
    omega
  constructor
  · rcases hc : indices.all (fun i =>
        decide (-(t.buf.len : Int) ≤ i) && decide (i < (t.buf.len : Int))) with _ | _
    · rw [if_neg Bool.false_ne_true]
      show (pd_take t.buf indices false fv) >>= _ = _
      simp only [pd_take, Bool.false_eq_true, if_false]
      rw [hc]
      rfl
    · simp only [eq_self_iff_true, if_true]
      show (pd_take t.buf indices false fv) >>= _ = _
      simp only [pd_take, Bool.false_eq_true, if_false]
      rw [hc]
      simp only [eq_self_iff_true, if_true, except_bind_ok]
      exact hrk _
  · rcases hneg : indices.any (fun i => decide (i < -1)) with _ | _
    · rcases hoob : indices.any (fun i => decide ((t.buf.len : Int) ≤ i)) with _ | _
      · rw [if_neg Bool.false_ne_true, if_neg Bool.false_ne_true]
        show (pd_take t.buf indices true fv) >>= _ = _
        simp only [pd_take, eq_self_iff_true, if_true]
        rw [hneg, hoob]
        simp only [Bool.false_eq_true, if_false, except_bind_ok]
        exact hrk _
      · rw [if_neg Bool.false_ne_true, if_pos rfl]
        show (pd_take t.buf indices true fv) >>= _ = _
        simp only [pd_take, eq_self_iff_true, if_true]
        rw [hneg, hoob]
        rfl
    · rw [if_pos rfl]
      show (pd_take t.buf indices true fv) >>= _ = _
      simp only [pd_take, eq_self_iff_true, if_true]
      rw [hneg]
      rfl

/-- Witness for C4 at the spec example: on a 3-row float64 array,
`take([0,-1])` without fill returns rows 0 and 2; with fill and the default
fill value it returns row 0 and a NaN-filled row; `take([0,-2])` with fill
raises `ValueError` and `take([0,3])` without fill raises `IndexError`. -/
theorem claim_C4_take_witness :
    (⟨⟨.float64, [3, 2], [1, 2, 3, 4, 5, 6]⟩⟩ : TensorArray).take [0, -1] false none =
      .ok ⟨⟨.float64, [2, 2], [1, 2, 5, 6]⟩⟩ ∧
    (⟨⟨.float64, [3, 2], [1, 2, 3, 4, 5, 6]⟩⟩ : TensorArray).take [0, -1] true none =
      .ok ⟨⟨.float64, [2, 2],
        [1, 2, 0x7ff8000000000000, 0x7ff8000000000000]⟩⟩ ∧
    (⟨⟨.float64, [3, 2], [1, 2, 3, 4, 5, 6]⟩⟩ : TensorArray).take [0, -2] true none =
      .error (.valueError "indices contains values less than allowed") ∧
    (⟨⟨.float64, [3, 2], [1, 2, 3, 4, 5, 6]⟩⟩ : TensorArray).take [0, 3] false none =
      .error (.indexError "index out of bounds") := by
  have h1 := claim_C4_take ⟨⟨.float64, [3, 2], [1, 2, 3, 4, 5, 6]⟩⟩ [0, -1] none
    (by decide) (Or.inr (Or.inr (Or.inr rfl)))
  have h2 := claim_C4_take ⟨⟨.float64, [3, 2], [1, 2, 3, 4, 5, 6]⟩⟩ [0, -2] none
    (by decide) (Or.inr (Or.inr (Or.inr rfl)))
  have h3 := claim_C4_take ⟨⟨.float64, [3, 2], [1, 2, 3, 4, 5, 6]⟩⟩ [0, 3] none
    (by decide) (Or.inr (Or.inr (Or.inr rfl)))
  refine ⟨?_, ?_, ?_, ?_⟩
  · rw [h1.1]
    decide
  · rw [h1.2]
    decide
  · rw [h2.2]
    decide
  · rw [h3.1]
    decide

/-!  Claim C1. -/

lemma natToLEBytes_length (w x : Nat) : (natToLEBytes w x).length = w := by
  induction w generalizing x with
  | zero => rfl
  | succ k ih => simp [natToLEBytes, ih]

lemma leBytesToNat_enc (w x : Nat) (h : x < 256 ^ w) :
    leBytesToNat (natToLEBytes w x) = x := by
  induction w generalizing x with
  | zero =>
    have : x = 0 := by simpa using Nat.lt_one_iff.mp (by simpa using h)
    simp [this, natToLEBytes, leBytesToNat]
  | succ k ih =>
    have hdiv : x / 256 < 256 ^ k := by
      rw [Nat.div_lt_iff_lt_mul (by norm_num : (0 : Nat) < 256)]
      rw [pow_succ] at h
      exact h
    simp only [natToLEBytes, leBytesToNat, ih _ hdiv]
    exact Nat.mod_add_div x 256

lemma takeChunks_flatten_eq {α : Type} (w : Nat) (l : List (List α))
    (h : ∀ c ∈ l, c.length = w) :
    takeChunks w l.length l.flatten = l := by
  induction l with
  | nil => rfl
  | cons c cs ih =>
    have hc : c.length = w := h c (List.mem_cons_self c cs)
    have h1 : (c ++ cs.flatten).take w = c := by
      rw [← hc]
      exact List.take_left _ _
    have h2 : (c ++ cs.flatten).drop w = cs.flatten := by
      rw [← hc]
      exact List.drop_left _ _
    simp only [List.length_cons, List.flatten_cons, takeChunks, h1, h2]
    exact congrArg (c :: ·) (ih (fun e he => h e (List.mem_cons_of_mem _ he)))

lemma takeChunks_flatten_inv {α : Type} (w n : Nat) (l : List α)
    (h : l.length = n * w) :
    (takeChunks w n l).flatten = l := by
  induction n generalizing l with
  | zero =>
    have : l = [] := List.eq_nil_of_length_eq_zero (by simpa using h)
    simp [takeChunks, this]
  | succ k ih =>
    simp only [takeChunks, List.flatten_cons]
    rw [ih (l.drop w) (by rw [List.length_drop, h, Nat.succ_mul]; omega)]
    exact List.take_append_drop w l

lemma takeChunks_mem_length {α : Type} (w n : Nat) (l : List α)
    (h : l.length = n * w) (c : List α) (hc : c ∈ takeChunks w n l) :
    c.length = w := by
  induction n generalizing l with
  | zero => simp [takeChunks] at hc
  | succ k ih =>
    simp only [takeChunks, List.mem_cons] at hc
    rcases hc with rfl | hc
    · simp only [List.length_take, h, Nat.succ_mul]
      omega
    · exact ih (l.drop w) (by rw [List.length_drop, h, Nat.succ_mul]; omega) hc

lemma takeChunks_mem_subset {α : Type} (w n : Nat) (l : List α) (c : List α)
    (hc : c ∈ takeChunks w n l) : ∀ x ∈ c, x ∈ l := by
  induction n generalizing l with
  | zero => simp [takeChunks] at hc
  | succ k ih =>
    simp only [takeChunks, List.mem_cons] at hc
    rcases hc with rfl | hc
    · exact fun x hx => List.take_subset _ _ hx
    · exact fun x hx => List.drop_subset _ _ (ih _ hc x hx)

lemma bit_width_eq (d : DType) : d.bit_width = 8 * d.byte_width := by
  cases d <;> rfl

lemma byte_width_pos (d : DType) : 0 < d.byte_width := by
  cases d <;> decide

lemma two_pow_bit_width (d : DType) : 2 ^ d.bit_width = 256 ^ d.byte_width := by
  cases d <;> decide

lemma tensorToBytes_length (w : Nat) (row : List Nat) :
    (tensorToBytes w row).length = row.length * w := by
  induction row with
  | nil => simp [tensorToBytes]
  | cons x xs ih =>
    simp only [tensorToBytes, List.map_cons, List.flatten_cons, List.length_append,
      natToLEBytes_length, List.length_cons, Nat.succ_mul] at ih ⊢
    rw [ih]
    exact Nat.add_comm _ _

lemma frombuffer_tensorToBytes (w : Nat) (hw : w ≠ 0) (row : List Nat)
    (h : ∀ x ∈ row, x < 256 ^ w) :
    np_frombuffer w (tensorToBytes w row) = .ok row := by
  have hlen := tensorToBytes_length w row
  have hmod : (tensorToBytes w row).length % w = 0 := by
    rw [hlen]
    exact Nat.mul_mod_left _ _
  have hdiv : (tensorToBytes w row).length / w = row.length := by
    rw [hlen]
    exact Nat.mul_div_cancel _ (Nat.pos_of_ne_zero hw)
  rw [np_frombuffer, if_pos ⟨hw, hmod⟩, hdiv]
  have hch : takeChunks w row.length (tensorToBytes w row) =
      row.map (natToLEBytes w) := by
    have := takeChunks_flatten_eq w (row.map (natToLEBytes w))
      (by
        intro c hc
        obtain ⟨x, _, rfl⟩ := List.mem_map.mp hc
        exact natToLEBytes_length w x)
    rw [List.length_map] at this
    exact this
  rw [hch, List.map_map]
  have h1 : List.map (leBytesToNat ∘ natToLEBytes w) row = List.map id row :=
    List.map_congr_left (fun x hx => leBytesToNat_enc w x (h x hx))
  rw [h1, List.map_id]

lemma mapExcept_ok {ε α β : Type} (f : α → Except ε β) (g : α → β)
    (l : List α) (h : ∀ a ∈ l, f a = .ok (g a)) :
    mapExcept f l = .ok (l.map g) := by
  induction l with
  | nil => rfl
  | cons a as ih =>
    simp only [mapExcept, h a (List.mem_cons_self a as), except_bind_ok,
      ih (fun b hb => h b (List.mem_cons_of_mem _ hb)), List.map_cons]

lemma mapExcept_map {ε α β γ : Type} (f : β → Except ε γ) (e : α → β)
    (l : List α) :
    mapExcept f (l.map e) = mapExcept (fun a => f (e a)) l := by
  induction l with
  | nil => rfl
  | cons a as ih => simp only [List.map_cons, mapExcept, ih]

/-- C1 (amended): the encode/decode round trip is bytewise exact for every
valid Tensor Array with at least one row: decoding the wire encoding yields
an array with the same trailing shape, the same element subtype, and the
same scalar bit patterns per row.  (For zero rows decoding raises; see the
counterexample theorem.) -/
theorem claim_C1_roundtrip (t : TensorArray) (hwf : t.buf.wf)
    (hrank : 2 ≤ t.buf.shape.length) (hn : 1 ≤ t.buf.len) :
    (t.arrow_array >>= TensorDtype.from_arrow) = .ok t := by
  rcases t with ⟨⟨d, shape, data⟩⟩
  match shape, hrank, hn, hwf with
  | d0 :: s0 :: srest, _, hn1, hwf1 =>
  have hd0 : 1 ≤ d0 := hn1
  have hdata_len : data.length = d0 * (s0 :: srest).prod := by
    have := hwf1.1
    rwa [List.prod_cons] at this
  have hbw : d.byte_width ≠ 0 := (byte_width_pos d).ne'
  -- the wire type built by the encoder
  have hty : mkArrowTensorType (s0 :: srest) d =
      .ok ⟨s0 :: srest, d, (s0 :: srest).prod * d.bit_width / 8⟩ :=
    mkArrowTensorType_cons s0 srest d
  have hsw : (s0 :: srest).prod * d.bit_width / 8 =
      (s0 :: srest).prod * d.byte_width := by
    rw [bit_width_eq, show (s0 :: srest).prod * (8 * d.byte_width) =
      ((s0 :: srest).prod * d.byte_width) * 8 by ring]
    exact Nat.mul_div_cancel _ (by norm_num)
  -- the rows of the buffer
  have hrow_len : ∀ r ∈ (⟨d, d0 :: s0 :: srest, data⟩ : NDArr).rows,
      r.length = (s0 :: srest).prod :=
    fun r hr => takeChunks_mem_length _ _ _ hdata_len r hr
  have hrow_mem : ∀ r ∈ (⟨d, d0 :: s0 :: srest, data⟩ : NDArr).rows,
      ∀ x ∈ r, x ∈ data :=
    fun r hr => takeChunks_mem_subset _ _ _ r hr
  have hcells : ((⟨d, d0 :: s0 :: srest, data⟩ : NDArr).rows.map
      (tensorToBytes d.byte_width)).all
        (fun c => c.length == (s0 :: srest).prod * d.bit_width / 8) = true := by
    rw [List.all_eq_true]
    intro c hc
    obtain ⟨r, hr, rfl⟩ := List.mem_map.mp hc
    rw [beq_iff_eq, tensorToBytes_length, hrow_len r hr, hsw]
  -- encoding succeeds
  have henc : TensorArray.arrow_array ⟨⟨d, d0 :: s0 :: srest, data⟩⟩ =
      .ok ⟨⟨s0 :: srest, d, (s0 :: srest).prod * d.bit_width / 8⟩,
        (⟨d, d0 :: s0 :: srest, data⟩ : NDArr).rows.map
          (tensorToBytes d.byte_width)⟩ := by
    show (mkArrowTensorType (s0 :: srest) d) >>= _ = _
    rw [hty, except_bind_ok]
    rw [if_pos hcells]
  rw [henc, except_bind_ok]
  -- decoding each cell recovers the row
  have hdec : ∀ r ∈ (⟨d, d0 :: s0 :: srest, data⟩ : NDArr).rows,
      (np_frombuffer d.byte_width (tensorToBytes d.byte_width r) >>=
        fun scalars => np_reshape d scalars (s0 :: srest)) =
      .ok ⟨d, s0 :: srest, r⟩ := by
    intro r hr
    rw [frombuffer_tensorToBytes d.byte_width hbw r
      (fun x hx => by
        rw [← two_pow_bit_width]
        exact hwf1.2 x (hrow_mem r hr x hx)), except_bind_ok]
    rw [np_reshape, if_pos (hrow_len r hr)]
  -- the decoded tensors list
  have hmap : mapExcept (fun bytes =>
      np_frombuffer d.byte_width bytes >>=
        fun scalars => np_reshape d scalars (s0 :: srest))
      ((⟨d, d0 :: s0 :: srest, data⟩ : NDArr).rows.map
        (tensorToBytes d.byte_width)) =
      .ok ((⟨d, d0 :: s0 :: srest, data⟩ : NDArr).rows.map
        (fun r => (⟨d, s0 :: srest, r⟩ : NDArr))) := by
    rw [mapExcept_map]
    exact mapExcept_ok _ _ _ hdec
  -- stacking the decoded tensors
  have hrows_len : (⟨d, d0 :: s0 :: srest, data⟩ : NDArr).rows.length = d0 :=
    takeChunks_length _ _ _
  obtain ⟨r0, rs, hcons⟩ := List.exists_cons_of_ne_nil
    (by
      intro hnil
      rw [hnil] at hrows_len
      simp at hrows_len
      omega : (⟨d, d0 :: s0 :: srest, data⟩ : NDArr).rows ≠ [])
  have hstk : np_stack ((⟨d, d0 :: s0 :: srest, data⟩ : NDArr).rows.map
      (fun r => (⟨d, s0 :: srest, r⟩ : NDArr))) =
      .ok ⟨d, d0 :: s0 :: srest, data⟩ := by
    rw [hcons, List.map_cons]
    rw [np_stack_of_all _ _ (by
      intro b hb
      obtain ⟨r, _, rfl⟩ := List.mem_map.mp hb
      rfl)]
    have hlist : (⟨d, s0 :: srest, r0⟩ :: rs.map (fun r => (⟨d, s0 :: srest, r⟩ : NDArr)) : List NDArr) =
        (r0 :: rs).map (fun r => (⟨d, s0 :: srest, r⟩ : NDArr)) := rfl
    rw [hlist, ← hcons]
    have hdata_eq : (((⟨d, d0 :: s0 :: srest, data⟩ : NDArr).rows.map
        (fun r => (⟨d, s0 :: srest, r⟩ : NDArr))).map NDArr.data).flatten = data := by
      rw [List.map_map]
      have : (NDArr.data ∘ fun r => (⟨d, s0 :: srest, r⟩ : NDArr)) =
          (fun r => r) := rfl
      rw [this, List.map_id']
      exact takeChunks_flatten_inv _ _ _ hdata_len
    rw [List.length_map, hrows_len, hdata_eq]
  show mapExcept _ _ >>= _ = _
  rw [hmap, except_bind_ok, hstk, except_bind_ok]
  exact mkFromNd_of_rank2 _ (by simp)

/-- Witness for C1 on a concrete valid one-row float32 array. -/
theorem claim_C1_roundtrip_witness :
    ((⟨⟨.float32, [1, 2], [1, 1078530011]⟩⟩ : TensorArray).arrow_array >>=
      TensorDtype.from_arrow) =
      .ok ⟨⟨.float32, [1, 2], [1, 1078530011]⟩⟩ :=
  claim_C1_roundtrip ⟨⟨.float32, [1, 2], [1, 1078530011]⟩⟩ (by decide)
    (by decide) (by decide)

/-- C1 counterexample: a valid zero-row float32 Tensor Array encodes
successfully, but decoding the encoding raises the `ValueError` of
`np.stack` on the empty tensor list instead of returning the array — the
round trip fails at N = 0. -/
theorem claim_C1_counterexample :
    (⟨⟨.float32, [0, 2], []⟩⟩ : TensorArray).buf.wf ∧
    ((⟨⟨.float32, [0, 2], []⟩⟩ : TensorArray).arrow_array >>=
      TensorDtype.from_arrow) =
      .error (.valueError "need at least one array to stack") := by
  decide

/-!  Claim C5. -/

lemma allIndices_mem_forall (s : List Nat) (ix : List Nat)
    (h : ix ∈ allIndices s) : List.Forall₂ (· < ·) ix s := by
  induction s generalizing ix with
  | nil =>
    simp only [allIndices, List.mem_singleton] at h
    subst h
    exact List.Forall₂.nil
  | cons dd ds ih =>
    simp only [allIndices, List.mem_flatMap, List.mem_map] at h
    obtain ⟨i, hi, jx, hjx, rfl⟩ := h
    exact List.Forall₂.cons (List.mem_range.mp hi) (ih _ hjx)

lemma zip_clamp_eq (ix s : List Nat) (h : List.Forall₂ (· < ·) ix s) :
    (ix.zip s).map (fun p => if p.2 = 1 then 0 else p.1) = ix := by
  induction h with
  | nil => rfl
  | @cons a b l1 l2 hab hrest ih =>
    simp only [List.zip_cons_cons, List.map_cons, ih]
    by_cases hb : b = 1
    · subst hb
      have : a = 0 := by omega
      subst this
      simp
    · simp [hb]

lemma projIndex_cons (i : Nat) (jx s : List Nat)
    (h : List.Forall₂ (· < ·) jx s) : projIndex (i :: jx) s = jx := by
  have hlen : jx.length = s.length := List.Forall₂.length_eq h
  rw [projIndex]
  have h1 : (i :: jx).length - s.length = 1 := by
    rw [List.length_cons, hlen]
    omega
  rw [h1]
  exact zip_clamp_eq jx s h

lemma flatIndex_lt {ix s : List Nat} (h : List.Forall₂ (· < ·) ix s) :
    flatIndex s ix < s.prod := by
  induction h with
  | nil => simp [flatIndex]
  | @cons a b l1 l2 hab hrest ih =>
    simp only [flatIndex, List.prod_cons]
    calc a * l2.prod + flatIndex l2 l1 < a * l2.prod + l2.prod := by omega
      _ = (a + 1) * l2.prod := by ring
      _ ≤ b * l2.prod := Nat.mul_le_mul_right _ hab

lemma range_flatMap_chunks (dd P : Nat) (data : List Nat)
    (h : data.length = dd * P) :
    (List.range dd).flatMap (fun i => (data.drop (i * P)).take P) = data := by
  induction dd generalizing data with
  | zero =>
    simp only [List.range_zero, List.flatMap_nil]
    exact (List.eq_nil_of_length_eq_zero (by simpa using h)).symm
  | succ k ih =>
    rw [List.range_succ_eq_map]
    simp only [List.flatMap_cons, Nat.zero_mul, List.drop_zero, List.flatMap_map]
    have hrest : (List.range k).flatMap
        (fun i => (data.drop (Nat.succ i * P)).take P) = data.drop P := by
      have hlen : (data.drop P).length = k * P := by
        rw [List.length_drop, h, Nat.add_mul, one_mul]
        omega
      have := ih (data.drop P) hlen
      rw [← this, List.flatMap_def, List.flatMap_def]
      congr 1
      apply List.map_congr_left
      intro i _
      have hx : P + i * P = Nat.succ i * P := by
        rw [Nat.succ_mul]
        omega
      rw [List.drop_drop, hx]
    rw [hrest]
    exact List.take_append_drop P data

lemma allIndices_map_getD (s : List Nat) (data : List Nat)
    (h : data.length = s.prod) :
    (allIndices s).map (fun ix => data.getD (flatIndex s ix) 0) = data := by
  induction s generalizing data with
  | nil =>
    cases data with
    | nil => simp at h
    | cons x xs =>
      cases xs with
      | nil => rfl
      | cons y ys => simp at h
  | cons dd ds ih =>
    simp only [allIndices, List.map_flatMap, List.map_map]
    have hstep : ∀ i ∈ List.range dd,
        (allIndices ds).map
          ((fun ix => data.getD (flatIndex (dd :: ds) ix) 0) ∘ (i :: ·)) =
          (data.drop (i * ds.prod)).take ds.prod := by
      intro i hi
      have hi' : i < dd := List.mem_range.mp hi
      have hchunk_len : ((data.drop (i * ds.prod)).take ds.prod).length =
          ds.prod := by
        have hle : i * ds.prod + ds.prod ≤ dd * ds.prod := by
          calc i * ds.prod + ds.prod = (i + 1) * ds.prod := by ring
            _ ≤ dd * ds.prod := Nat.mul_le_mul_right _ hi'
        rw [List.length_take, List.length_drop, h, List.prod_cons]
        omega
      have hih := ih ((data.drop (i * ds.prod)).take ds.prod) hchunk_len
      rw [← hih]
      apply List.map_congr_left
      intro jx hjx
      have hflt : flatIndex ds jx < ds.prod :=
        flatIndex_lt (allIndices_mem_forall ds jx hjx)
      show data.getD (flatIndex (dd :: ds) (i :: jx)) 0 = _
      simp only [flatIndex]
      rw [List.getD_eq_getElem?_getD, List.getD_eq_getElem?_getD,
        List.getElem?_take_of_lt hflt, List.getElem?_drop]
    have hsum : (List.range dd).flatMap (fun i =>
        (allIndices ds).map
          ((fun ix => data.getD (flatIndex (dd :: ds) ix) 0) ∘ (i :: ·))) =
        (List.range dd).flatMap (fun i => (data.drop (i * ds.prod)).take ds.prod) := by
      rw [List.flatMap_def, List.flatMap_def]
      exact congrArg List.flatten (List.map_congr_left hstep)
    rw [hsum, range_flatMap_chunks dd ds.prod data (by rw [h, List.prod_cons])]

lemma range_flatMap_const {α : Type} (m : Nat) (c : List α) :
    (List.range m).flatMap (fun _ => c) = (List.replicate m c).flatten := by
  induction m with
  | zero => rfl
  | succ k ih =>
    rw [List.range_succ, List.flatMap_append, ih, List.replicate_succ',
      List.flatten_append]
    simp

lemma zip_self_all (s : List Nat) :
    (s.zip s).all (fun p => p.1 == p.2 || p.1 == 1) = true := by
  induction s with
  | nil => rfl
  | cons x xs ih => simp [ih]

lemma broadcastTo_cons_self (v : NDArr) (m : Nat)
    (hlen : v.data.length = v.shape.prod) :
    broadcastTo v (m :: v.shape) =
      some ⟨v.dtype, m :: v.shape, (List.replicate m v.data).flatten⟩ := by
  rw [broadcastTo]
  have hle : v.shape.length ≤ (m :: v.shape).length := by simp
  rw [if_pos hle]
  have hpad : List.replicate ((m :: v.shape).length - v.shape.length) 1 ++ v.shape
      = 1 :: v.shape := by
    rw [List.length_cons]
    have h1 : v.shape.length + 1 - v.shape.length = 1 := by omega
    rw [h1]
    rfl
  rw [hpad]
  have hall : ((1 :: v.shape).zip (m :: v.shape)).all
      (fun p => p.1 == p.2 || p.1 == 1) = true := by
    rw [List.zip_cons_cons, List.all_cons]
    simp [zip_self_all]
  rw [hall]
  simp only [if_true]
  have hdata : (allIndices (m :: v.shape)).map
      (fun ix => v.item (projIndex ix v.shape)) =
      (List.replicate m v.data).flatten := by
    simp only [allIndices, List.map_flatMap, List.map_map]
    have hin : ∀ i ∈ List.range m,
        (allIndices v.shape).map
          ((fun ix => v.item (projIndex ix v.shape)) ∘ (i :: ·)) = v.data := by
      intro i _
      have hpt : ∀ jx ∈ allIndices v.shape,
          ((fun ix => v.item (projIndex ix v.shape)) ∘ (i :: ·)) jx =
            v.data.getD (flatIndex v.shape jx) 0 := by
        intro jx hjx
        show v.item (projIndex (i :: jx) v.shape) = _
        rw [NDArr.item, projIndex_cons i jx v.shape
          (allIndices_mem_forall _ _ hjx)]
      rw [List.map_congr_left hpt, allIndices_map_getD _ _ hlen]
    have : (List.range m).flatMap (fun i =>
        (allIndices v.shape).map
          ((fun ix => v.item (projIndex ix v.shape)) ∘ (i :: ·))) =
        (List.range m).flatMap (fun _ => v.data) := by
      rw [List.flatMap_def, List.flatMap_def]
      exact congrArg List.flatten (List.map_congr_left hin)
    rw [this, range_flatMap_const]
  rw [hdata]

lemma rows_replicate (d : DType) (m : Nat) (s : List Nat) (c : List Nat)
    (hc : c.length = s.prod) :
    (⟨d, m :: s, (List.replicate m c).flatten⟩ : NDArr).rows =
      List.replicate m c := by
  have := takeChunks_flatten_eq s.prod (List.replicate m c)
    (fun e he => by rw [List.eq_of_mem_replicate he, hc])
  rw [List.length_replicate] at this
  exact this

lemma assignLoop_replicate (x : List Nat) (mask : List Bool) :
    ∀ (rs : List (List Nat)) (k : Nat),
      rs.length = mask.length → mask.count true ≤ k →
      assignLoop rs mask (List.replicate k x) =
        (rs.zip mask).map (fun p => if p.2 then x else p.1) := by
  induction mask with
  | nil =>
    intro rs k h1 _
    cases rs with
    | nil => rfl
    | cons r rs' => simp at h1
  | cons b bs ih =>
    intro rs k h1 h2
    cases rs with
    | nil => simp at h1
    | cons r rs' =>
      have h1' : rs'.length = bs.length := by simpa using h1
      cases b with
      | true =>
        cases k with
        | zero =>
          exfalso
          simp [List.count_cons] at h2
        | succ k' =>
          have h2' : bs.count true ≤ k' := by
            simp [List.count_cons] at h2
            omega
          simp only [assignLoop, List.replicate_succ, List.headD_cons,
            List.tail_cons, if_true, List.zip_cons_cons, List.map_cons]
          rw [ih rs' k' h1' h2']
      | false =>
        have h2' : bs.count true ≤ k := by
          simp [List.count_cons] at h2
          omega
        simp only [assignLoop, Bool.false_eq_true, if_false,
          List.zip_cons_cons, List.map_cons]
        rw [ih rs' k h1' h2']

lemma maskAssign_row_broadcast (a : NDArr) (mask : List Bool) (v : NDArr)
    (hm : mask.length = a.len)
    (hv : v.shape = a.shape.tail) (hvl : v.data.length = v.shape.prod)
    (hrows : a.data.length = a.len * a.shape.tail.prod) :
    maskAssign a mask v = .ok ⟨a.dtype, a.shape,
      ((a.rows.zip mask).map
        (fun p => if p.2 then v.data else p.1)).flatten⟩ := by
  rw [maskAssign, if_neg (by simp [hm])]
  have hbc := broadcastTo_cons_self v (mask.count true) hvl
  rw [hv] at hbc
  rw [hbc]
  have hvrows : (⟨v.dtype, mask.count true :: a.shape.tail,
      (List.replicate (mask.count true) v.data).flatten⟩ : NDArr).rows =
      List.replicate (mask.count true) v.data :=
    rows_replicate _ _ _ _ (by rw [hvl, hv])
  show (Except.ok ⟨a.dtype, a.shape, (assignLoop a.rows mask
      ((⟨v.dtype, mask.count true :: a.shape.tail,
        (List.replicate (mask.count true) v.data).flatten⟩ : NDArr).rows)).flatten⟩ :
      Except PyErr NDArr) = _
  rw [hvrows, assignLoop_replicate v.data mask a.rows (mask.count true)
    (by rw [NDArr.rows, takeChunks_length, hm]) (le_refl _)]

/-- C5 (amended): for every valid Tensor Array, row mask of matching
length, and single-tensor (broadcast) replacement of the element shape, the
masked-replace takes the vectorized in-place branch — TensorArray supports
item assignment, so the fallback is not entered and the operation does not
fail — and returns the array whose row `i` is `self`'s row `i` where the
mask is true and the replacement tensor where it is false.  (The
elementwise fallback, if forced, does not reproduce this result on tensor
arrays; see the counterexample theorem.) -/
theorem claim_C5_where (t : TensorArray) (cond : List Bool) (other : NDArr)
    (hwf : t.buf.wf) (hrank : 2 ≤ t.buf.shape.length)
    (hc : cond.length = t.buf.len) (ho : other.shape = t.buf.shape.tail)
    (hol : other.data.length = other.shape.prod) :
    block_where t cond other true =
      .ok ⟨⟨t.buf.dtype, t.buf.shape,
        ((t.buf.rows.zip cond).map
          (fun p => if p.2 then p.1 else other.data)).flatten⟩⟩ := by
  have hrows : t.buf.data.length = t.buf.len * t.buf.shape.tail.prod := by
    rcases hsh : t.buf.shape with _ | ⟨s0, rest⟩
    · rw [hsh] at hrank
      simp at hrank
    · have h1 := hwf.1
      rw [hsh, List.prod_cons] at h1
      simp only [NDArr.len, hsh, List.headD_cons, List.tail_cons]
      exact h1
  show (maskAssign t.buf (cond.map (!·)) other) >>= _ = _
  rw [maskAssign_row_broadcast t.buf (cond.map (!·)) other
    (by simpa using hc) ho hol hrows, except_bind_ok]
  have hzip : (t.buf.rows.zip (cond.map (!·))).map
      (fun p => if p.2 then other.data else p.1) =
      (t.buf.rows.zip cond).map
        (fun p => if p.2 then p.1 else other.data) := by
    rw [List.zip_map_right, List.map_map]
    apply List.map_congr_left
    intro p _
    rcases p with ⟨r, b⟩
    cases b <;> rfl
  rw [hzip]

/-- Witness for C5 at the spec example: rows [A,B,C], mask [true,false,true],
single-tensor replacement Z — the vectorized path yields [A,Z,C]. -/
theorem claim_C5_where_witness :
    block_where ⟨⟨.int32, [3, 2], [1, 2, 3, 4, 5, 6]⟩⟩ [true, false, true]
        ⟨.int32, [2], [9, 9]⟩ true =
      .ok ⟨⟨.int32, [3, 2], [1, 2, 9, 9, 5, 6]⟩⟩ := by
  rw [claim_C5_where ⟨⟨.int32, [3, 2], [1, 2, 3, 4, 5, 6]⟩⟩
    [true, false, true] ⟨.int32, [2], [9, 9]⟩ (by decide) (by decide)
    (by decide) (by decide) (by decide)]
  decide

/-- C5 counterexample: on the 3-row int32 array with rows [A,B,C] and mask
[true,false,true], the vectorized branch with a single-tensor replacement
yields [A,Z,C], but with the vectorized assignment simulated as unsupported
the fallback branch raises a broadcast `ValueError` (the 1-D mask does not
broadcast against the (3,2) buffer in `np.where`) instead of producing the
identical result; and with a per-row replacement of shape (3,2) even the
vectorized branch raises, because `set_other` is the whole `other` while the
mask selects only one row. -/
theorem claim_C5_counterexample :
    block_where ⟨⟨.int32, [3, 2], [1, 2, 3, 4, 5, 6]⟩⟩ [true, false, true]
        ⟨.int32, [2], [9, 9]⟩ true =
      .ok ⟨⟨.int32, [3, 2], [1, 2, 9, 9, 5, 6]⟩⟩ ∧
    block_where ⟨⟨.int32, [3, 2], [1, 2, 3, 4, 5, 6]⟩⟩ [true, false, true]
        ⟨.int32, [2], [9, 9]⟩ false =
      .error (.valueError "operands could not be broadcast together") ∧
    block_where ⟨⟨.int32, [3, 2], [1, 2, 3, 4, 5, 6]⟩⟩ [true, false, true]
        ⟨.int32, [3, 2], [7, 7, 8, 8, 9, 9]⟩ true =
      .error (.valueError "NumPy boolean array indexing assignment cannot broadcast input values to the masked output") := by
  decide

/-!  Claim C10. -/

lemma read_alloc_new (m : Mem) (a : NDArr) :
    (m.alloc a).1.read (m.alloc a).2 = a := by
  simp only [Mem.alloc, Mem.read, List.getD_eq_getElem?_getD]
  rw [List.getElem?_append_right (le_refl _)]
  simp

lemma read_alloc_old (m : Mem) (a : NDArr) (r : Nat) (hr : r < m.bufs.length) :
    (m.alloc a).1.read r = m.read r := by
  simp only [Mem.alloc, Mem.read, List.getD_eq_getElem?_getD]
  rw [List.getElem?_append_left hr]

lemma read_setRow_ne (m : Mem) (r' i : Nat) (row : List Nat) (r : Nat)
    (hne : r' ≠ r) :
    (aliasSetRow m r' i row).read r = m.read r := by
  simp only [aliasSetRow, Mem.read, List.getD_eq_getElem?_getD]
  rw [List.getElem?_set_ne hne]

lemma read_setRow_self (m : Mem) (r i : Nat) (row : List Nat)
    (hr : r < m.bufs.length) :
    (aliasSetRow m r i row).read r = (m.read r).setRow i row := by
  simp only [aliasSetRow, Mem.read, List.getD_eq_getElem?_getD]
  rw [List.getElem?_set_self hr]
  rfl

lemma np_stack_nd_of_pos (a : NDArr) (h : 1 ≤ a.len) : np_stack_nd a = .ok a := by
  rcases a with ⟨d, shape, data⟩
  cases shape with
  | nil =>
    rw [NDArr.len] at h
    simp at h
  | cons s0 rest =>
    cases s0 with
    | zero =>
      rw [NDArr.len] at h
      simp at h
    | succ n => rfl

/-- C10 (amended): constructing from an existing TensorArray and
`_from_sequence` on one (whatever the `copy` flag says) adopt the same
backing buffer, so an in-place set through the new handle is a set in the
buffer the original reads.  `copy()` always returns a fresh buffer with
equal content, whose mutation leaves the original unchanged.  `view()`,
contrary to its name, also returns a fresh buffer for every non-empty array
(its `self.__class__(self._ndarray)` goes through `np.stack`, which
copies); it shares the buffer only for a zero-row array (the `ValueError`
fallback keeps the ndarray object). -/
theorem claim_C10_aliasing (m : Mem) (r i : Nat) (row : List Nat)
    (flag : Bool) (hr : r < m.bufs.length) :
    ((aliasInitFromTA m r).2 = r ∧ (aliasInitFromTA m r).1 = m) ∧
    ((aliasFromSequenceTA m r flag).2 = r ∧
      (aliasFromSequenceTA m r flag).1 = m) ∧
    ((aliasSetRow (aliasInitFromTA m r).1 (aliasInitFromTA m r).2 i row).read r =
      (m.read r).setRow i row) ∧
    (1 ≤ (m.read r).len →
      (aliasView m r).2 = m.bufs.length ∧
      (aliasView m r).1.read (aliasView m r).2 = m.read r ∧
      (aliasSetRow (aliasView m r).1 (aliasView m r).2 i row).read r =
        m.read r) ∧
    ((m.read r).len = 0 → (m.read r).shape ≠ [] → aliasView m r = (m, r)) ∧
    (m.bufs.length ≤ (aliasCopy m r).2 ∧
      (aliasCopy m r).1.read (aliasCopy m r).2 = m.read r ∧
      (aliasSetRow (aliasCopy m r).1 (aliasCopy m r).2 i row).read r =
        m.read r) := by
  refine ⟨⟨rfl, rfl⟩, ⟨rfl, rfl⟩, read_setRow_self m r i row hr, ?_, ?_, ?_⟩
  · intro hpos
    have hview : aliasView m r = m.alloc (m.read r) := by
      rw [aliasView, np_stack_nd_of_pos _ hpos]
    rw [hview]
    refine ⟨rfl, read_alloc_new m (m.read r), ?_⟩
    rw [read_setRow_ne _ _ _ _ _ (by simp only [Mem.alloc, List.length_append, List.length_singleton]; omega)]
    exact read_alloc_old m _ r hr
  · intro hzero hsh
    rcases hs : (m.read r).shape with _ | ⟨s0, rest⟩
    · exact absurd hs hsh
    · have hs0 : s0 = 0 := by
        have := hzero
        rw [NDArr.len, hs] at this
        simpa using this
      rw [aliasView]
      rcases hread : m.read r with ⟨d, shape, data⟩
      rw [hread] at hs
      subst hs
      subst hs0
      rfl
  · have hc1 : (m.alloc (m.read r)).1.read (m.alloc (m.read r)).2 = m.read r :=
      read_alloc_new m (m.read r)
    rw [aliasCopy]
    rcases hstk : np_stack_nd ((m.alloc (m.read r)).1.read (m.alloc (m.read r)).2)
      with e | nd
    · refine ⟨by simp only [Mem.alloc, List.length_append, List.length_singleton]; omega, hc1, ?_⟩
      rw [read_setRow_ne _ _ _ _ _ (by simp only [Mem.alloc, List.length_append, List.length_singleton]; omega)]
      exact read_alloc_old m _ r hr
    · have hnd : nd = m.read r := by
        rw [hc1] at hstk
        rcases hread : m.read r with ⟨d, shape, data⟩
        rw [hread] at hstk
        cases shape with
        | nil => simp [np_stack_nd] at hstk
        | cons s0 rest =>
          cases s0 with
          | zero => simp [np_stack_nd] at hstk
          | succ n =>
            simp only [np_stack_nd, Except.ok.injEq] at hstk
            exact hstk.symm
      refine ⟨by simp only [Mem.alloc, List.length_append, List.length_singleton]; omega, ?_, ?_⟩
      · rw [read_alloc_new, hnd]
      · rw [read_setRow_ne _ _ _ _ _ (by simp only [Mem.alloc, List.length_append, List.length_singleton]; omega)]
        rw [read_alloc_old _ _ r (by simp only [Mem.alloc, List.length_append, List.length_singleton]; omega)]
        exact read_alloc_old m _ r hr

/-- Witness for C10 on a concrete one-buffer memory. -/
theorem claim_C10_aliasing_witness :
    (aliasSetRow (aliasInitFromTA ⟨[⟨.int32, [1, 2], [5, 7]⟩]⟩ 0).1
        (aliasInitFromTA ⟨[⟨.int32, [1, 2], [5, 7]⟩]⟩ 0).2 0 [9, 9]).read 0 =
      ((⟨[⟨.int32, [1, 2], [5, 7]⟩]⟩ : Mem).read 0).setRow 0 [9, 9] ∧
    (aliasSetRow (aliasCopy ⟨[⟨.int32, [1, 2], [5, 7]⟩]⟩ 0).1
        (aliasCopy ⟨[⟨.int32, [1, 2], [5, 7]⟩]⟩ 0).2 0 [9, 9]).read 0 =
      (⟨[⟨.int32, [1, 2], [5, 7]⟩]⟩ : Mem).read 0 := by
  have h := claim_C10_aliasing ⟨[⟨.int32, [1, 2], [5, 7]⟩]⟩ 0 0 [9, 9] true
    (by decide)
  exact ⟨h.2.2.1, h.2.2.2.2.2.2.2⟩

/-- C10 counterexample: on a one-row array, `view()` allocates a fresh
buffer (reference 1, not 0), and an in-place set through the view leaves
the original buffer unchanged — mutation through the view is not observable
through the original, contrary to the claim. -/
theorem claim_C10_counterexample :
    (aliasView ⟨[⟨.int32, [1, 2], [5, 7]⟩]⟩ 0).2 = 1 ∧
    (aliasSetRow (aliasView ⟨[⟨.int32, [1, 2], [5, 7]⟩]⟩ 0).1
        (aliasView ⟨[⟨.int32, [1, 2], [5, 7]⟩]⟩ 0).2 0 [9, 9]).read 0 =
      ⟨.int32, [1, 2], [5, 7]⟩ ∧
    (aliasSetRow (aliasView ⟨[⟨.int32, [1, 2], [5, 7]⟩]⟩ 0).1
        (aliasView ⟨[⟨.int32, [1, 2], [5, 7]⟩]⟩ 0).2 0 [9, 9]).read 1 =
      ⟨.int32, [1, 2], [9, 9]⟩ := by
  decide

end Tensorpandas
